import Mathlib

/-!
# Verification of `yival/experiment/experiment_runner.py`

A shallow embedding of the experiment runner's scheduling core:

* `arun_single_input` / `run_single_input` — the external evaluation engine
  (modelled from the spec, the module `yival.experiment.utils` is not part of
  the given source);
* `aparallel_task` / `parallel_task` — the per-task executors;
* `run_retry` / `eval_fn_with_semaphore` — the retry loop of the cooperative
  scheduler, modelled over an explicit trace of per-attempt engine outcomes
  and emitting an event trace (semaphore acquire/release, rate-budget waits,
  backoff sleeps, token replenishment);
* `aprocess_dataset` / `process_dataset` — the two scheduling variants'
  aggregation;
* `SchedStep` / `SchedReachable` — a small-step model of the admission
  controller used for the concurrency invariant;
* `run` — the top-level `ExperimentRunner.run` pickle short-circuit logic over
  an explicit filesystem.

Opaque data is represented by `Nat` identifiers: a datum is a `Nat`, a
variation combination is a `Nat`, and the engine's per-pair token usage is an
arbitrary function `u : Nat → Nat → Nat`.
-/

namespace Yival

/-- A single experiment result: the outcome of evaluating one
(datum, variation-combination) pair, carrying its token usage (the "cost"
reported to the rate budget via `add_tokens`). -/
structure ExperimentResult where
  datum : Nat
  combination : Nat
  token_usage : Nat
deriving DecidableEq, Repr

/-- The (datum, combination) key of a result. -/
def resultKey (r : ExperimentResult) : Nat × Nat := (r.datum, r.combination)

/-- Modelled from the spec: `arun_single_input` (from `yival.experiment.utils`,
not part of the given source) evaluates one datum against the full variation
combination set and returns one `ExperimentResult` per combination, each
carrying the engine-reported token usage for that pair. -/
def arun_single_input (data_point : Nat) (all_combinations : List Nat)
    (u : Nat → Nat → Nat) : List ExperimentResult :=
  all_combinations.map (fun c => ⟨data_point, c, u data_point c⟩)

/-- Modelled from the spec: `run_single_input` (from `yival.experiment.utils`,
not part of the given source) is the synchronous counterpart of
`arun_single_input`, driving the same evaluation engine: one result per
variation combination. -/
def run_single_input (data_point : Nat) (all_combinations : List Nat)
    (u : Nat → Nat → Nat) : List ExperimentResult :=
  all_combinations.map (fun c => ⟨data_point, c, u data_point c⟩)

/-- `ExperimentRunner.aparallel_task` (lines 123–133): the body is
`for _ in all_combinations: return await arun_single_input(...)`, so for an
empty combination list the loop body never runs and the coroutine returns
`None`; for a non-empty list it returns, on the first iteration, the full
result list for all combinations. -/
def aparallel_task (data_point : Nat) (all_combinations : List Nat)
    (u : Nat → Nat → Nat) : Option (List ExperimentResult) :=
  match all_combinations with
  | [] => none
  | _ :: _ => some (arun_single_input data_point all_combinations u)

/-- `ExperimentRunner.parallel_task` (lines 135–144): draws from a rate
limiter, then returns `run_single_input` for the datum against all
combinations. -/
def parallel_task (data_point : Nat) (all_combinations : List Nat)
    (u : Nat → Nat → Nat) : List ExperimentResult :=
  run_single_input data_point all_combinations u

/-- The outcome of one invocation of the evaluation engine inside
`eval_fn_with_semaphore`'s `while True` loop: a transient throughput-limit
error, a non-transient evaluation failure, or a normal return. -/
inductive AttemptOutcome where
  | throughputLimit
  | evalFailure
  | ok
deriving DecidableEq, Repr

/-- Observable events of one task's execution in the cooperative scheduler. -/
inductive Event where
  | acquire
  | release
  | rateWait
  | engineCall (o : AttemptOutcome)
  | backoff (duration : Nat)
  | addTokens (n : Nat)
deriving DecidableEq, Repr

/-- The `while True` retry loop inside `eval_fn_with_semaphore`
(lines 70–82), run against a trace `oc` of per-attempt engine outcomes.
`outer_nonempty` is the truth value of the guard `if results:` at the moment
of the check — `results` there is the *outer* aggregation list of
`_aprocess_dataset` (line 85), not the task's own (misspelled) `resutls`.

Returns `none` when the trace is exhausted without the loop returning (the
real loop never exits on failure: the bare `except:` catches every exception,
sleeps 100 seconds and retries). Otherwise returns the emitted event list and
the value returned (`none` models returning Python `None`, which happens when
`aparallel_task` returns `None` and the `if results:` guard is false).
When the guard is true and `aparallel_task` returned `None`, iterating
`for result in resutls` raises `TypeError`, which the bare `except:` also
catches and retries. -/
def run_retry (d : Nat) (V : List Nat) (u : Nat → Nat → Nat)
    (outer_nonempty : Bool) :
    List AttemptOutcome → Option (List Event × Option (List ExperimentResult))
  | [] => none
  | AttemptOutcome.ok :: rest =>
    match aparallel_task d V u with
    | some rs =>
      let cost := if outer_nonempty then
          rs.map (fun r => Event.addTokens r.token_usage)
        else []
      some ([Event.rateWait, Event.engineCall AttemptOutcome.ok] ++ cost,
        some rs)
    | none =>
      if outer_nonempty then
        match run_retry d V u outer_nonempty rest with
        | none => none
        | some (evs, r) =>
          some ([Event.rateWait, Event.engineCall AttemptOutcome.ok,
            Event.backoff 100] ++ evs, r)
      else
        some ([Event.rateWait, Event.engineCall AttemptOutcome.ok], none)
  | AttemptOutcome.throughputLimit :: rest =>
    match run_retry d V u outer_nonempty rest with
    | none => none
    | some (evs, r) =>
      some ([Event.rateWait, Event.engineCall AttemptOutcome.throughputLimit,
        Event.backoff 100] ++ evs, r)
  | AttemptOutcome.evalFailure :: rest =>
    match run_retry d V u outer_nonempty rest with
    | none => none
    | some (evs, r) =>
      some ([Event.rateWait, Event.engineCall AttemptOutcome.evalFailure,
        Event.backoff 100] ++ evs, r)

/-- `eval_fn_with_semaphore` (lines 68–82): acquire the semaphore
(`async with semaphore:`), run the retry loop, release the semaphore on exit
of the `with` block. -/
def eval_fn_with_semaphore (d : Nat) (V : List Nat) (u : Nat → Nat → Nat)
    (outer_nonempty : Bool) (oc : List AttemptOutcome) :
    Option (List Event × Option (List ExperimentResult)) :=
  match run_retry d V u outer_nonempty oc with
  | none => none
  | some (evs, r) => some (Event.acquire :: (evs ++ [Event.release]), r)

/-- One `results.extend(await future)` step of `_aprocess_dataset`
(line 95): extending with a task's returned list appends it; extending with
`None` raises `TypeError` (modelled as `none`); a task that never returns
(infinite retry) is also `none`. -/
def extendStep (V : List Nat) (u : Nat → Nat → Nat)
    (traces : Nat → List AttemptOutcome) (flags : Nat → Bool)
    (acc : Option (List ExperimentResult)) (d : Nat) :
    Option (List ExperimentResult) :=
  match acc, eval_fn_with_semaphore d V u (flags d) (traces d) with
  | some rs, some (_, some r2) => some (rs ++ r2)
  | _, _ => none

/-- `_aprocess_dataset` (lines 58–97), aggregation part: one future per datum
is created, and `results.extend(await future)` runs once per future in
completion order. `completed` is the data in completion order (an arbitrary
permutation of the submitted data), `traces d` the engine outcome trace of
datum `d`'s task, and `flags d` the truth value of the `if results:` guard
observed by that task. Returns `none` when any task never terminates or
returns `None` (making `results.extend` raise `TypeError`). -/
def aprocess_dataset (completed : List Nat) (V : List Nat)
    (u : Nat → Nat → Nat) (traces : Nat → List AttemptOutcome)
    (flags : Nat → Bool) : Option (List ExperimentResult) :=
  completed.foldl (extendStep V u traces flags) (some [])

/-- `_process_dataset` (lines 99–121): for each data batch in order,
`executor.map(self.parallel_task, data, ...)` yields each datum's result list
in submission order and `results.extend(res)` appends them. -/
def process_dataset (data_batches : List (List Nat)) (V : List Nat)
    (u : Nat → Nat → Nat) : List ExperimentResult :=
  (data_batches.map
    (fun data => (data.map (fun d => parallel_task d V u)).flatten)).flatten

/-- Recognizer of backoff-sleep events. -/
def isBackoff : Event → Bool
  | Event.backoff _ => true
  | _ => false

/-! ### Lemmas about the retry loop -/

theorem aparallel_task_eq_some {d : Nat} {V : List Nat} {u : Nat → Nat → Nat}
    {rs : List ExperimentResult} (h : aparallel_task d V u = some rs) :
    rs = arun_single_input d V u := by
  cases V with
  | nil => simp [aparallel_task] at h
  | cons v V' =>
    simp only [aparallel_task] at h
    exact (Option.some.injEq _ _ ▸ h).symm

theorem run_retry_value (d : Nat) (V : List Nat) (u : Nat → Nat → Nat)
    (flag : Bool) :
    ∀ (oc : List AttemptOutcome) (evs : List Event)
      (r : Option (List ExperimentResult)),
      run_retry d V u flag oc = some (evs, r) →
      r = none ∨ r = some (arun_single_input d V u) := by
  intro oc
  induction oc with
  | nil => intro evs r h; simp [run_retry] at h
  | cons o rest ih =>
    intro evs r h
    cases o with
    | ok =>
      cases hA : aparallel_task d V u with
      | some rs =>
        simp only [run_retry, hA] at h
        obtain ⟨-, h2⟩ := Prod.mk.injEq .. ▸ Option.some.injEq .. ▸ h
        right
        rw [← h2, aparallel_task_eq_some hA]
      | none =>
        cases flag with
        | false =>
          simp only [run_retry, hA, Bool.false_eq_true, if_false] at h
          obtain ⟨-, h2⟩ := Prod.mk.injEq .. ▸ Option.some.injEq .. ▸ h
          left; exact h2.symm
        | true =>
          cases hR : run_retry d V u true rest with
          | none => simp [run_retry, hA, hR] at h
          | some p =>
            obtain ⟨evs', r'⟩ := p
            simp only [run_retry, hA, if_true, hR] at h
            obtain ⟨-, h2⟩ := Prod.mk.injEq .. ▸ Option.some.injEq .. ▸ h
            exact h2 ▸ ih evs' r' hR
    | throughputLimit =>
      cases hR : run_retry d V u flag rest with
      | none => simp [run_retry, hR] at h
      | some p =>
        obtain ⟨evs', r'⟩ := p
        simp only [run_retry, hR] at h
        obtain ⟨-, h2⟩ := Prod.mk.injEq .. ▸ Option.some.injEq .. ▸ h
        exact h2 ▸ ih evs' r' hR
    | evalFailure =>
      cases hR : run_retry d V u flag rest with
      | none => simp [run_retry, hR] at h
      | some p =>
        obtain ⟨evs', r'⟩ := p
        simp only [run_retry, hR] at h
        obtain ⟨-, h2⟩ := Prod.mk.injEq .. ▸ Option.some.injEq .. ▸ h
        exact h2 ▸ ih evs' r' hR

theorem run_retry_ok_mem (d : Nat) (V : List Nat) (u : Nat → Nat → Nat)
    (flag : Bool) (hV : V ≠ []) :
    ∀ oc : List AttemptOutcome, AttemptOutcome.ok ∈ oc →
      ∃ evs, run_retry d V u flag oc =
        some (evs, some (arun_single_input d V u)) := by
  intro oc
  induction oc with
  | nil => intro h; simp at h
  | cons o rest ih =>
    intro h
    cases o with
    | ok =>
      cases V with
      | nil => exact absurd rfl hV
      | cons v V' => exact ⟨_, rfl⟩
    | throughputLimit =>
      have hrest : AttemptOutcome.ok ∈ rest := by
        rcases List.mem_cons.mp h with h1 | h2
        · simp at h1
        · exact h2
      obtain ⟨evs, hevs⟩ := ih hrest
      refine ⟨[Event.rateWait,
        Event.engineCall AttemptOutcome.throughputLimit,
        Event.backoff 100] ++ evs, ?_⟩
      simp [run_retry, hevs]
    | evalFailure =>
      have hrest : AttemptOutcome.ok ∈ rest := by
        rcases List.mem_cons.mp h with h1 | h2
        · simp at h1
        · exact h2
      obtain ⟨evs, hevs⟩ := ih hrest
      refine ⟨[Event.rateWait,
        Event.engineCall AttemptOutcome.evalFailure,
        Event.backoff 100] ++ evs, ?_⟩
      simp [run_retry, hevs]

theorem run_retry_nil_combos (d : Nat) (u : Nat → Nat → Nat) (flag : Bool) :
    ∀ oc : List AttemptOutcome,
      run_retry d [] u flag oc = none ∨
        ∃ evs, run_retry d [] u flag oc = some (evs, none) := by
  intro oc
  induction oc with
  | nil => left; rfl
  | cons o rest ih =>
    cases o with
    | ok =>
      cases flag with
      | false => right; exact ⟨_, rfl⟩
      | true =>
        rcases ih with h | ⟨evs, h⟩
        · left; simp [run_retry, aparallel_task, h]
        · right
          refine ⟨[Event.rateWait, Event.engineCall AttemptOutcome.ok,
            Event.backoff 100] ++ evs, ?_⟩
          simp [run_retry, aparallel_task, h]
    | throughputLimit =>
      rcases ih with h | ⟨evs, h⟩
      · left; simp [run_retry, h]
      · right
        refine ⟨[Event.rateWait,
          Event.engineCall AttemptOutcome.throughputLimit,
          Event.backoff 100] ++ evs, ?_⟩
        simp [run_retry, h]
    | evalFailure =>
      rcases ih with h | ⟨evs, h⟩
      · left; simp [run_retry, h]
      · right
        refine ⟨[Event.rateWait,
          Event.engineCall AttemptOutcome.evalFailure,
          Event.backoff 100] ++ evs, ?_⟩
        simp [run_retry, h]

theorem run_retry_events_no_sem (d : Nat) (V : List Nat)
    (u : Nat → Nat → Nat) (flag : Bool) :
    ∀ (oc : List AttemptOutcome) (evs : List Event)
      (r : Option (List ExperimentResult)),
      run_retry d V u flag oc = some (evs, r) →
      Event.acquire ∉ evs ∧ Event.release ∉ evs := by
  intro oc
  induction oc with
  | nil => intro evs r h; simp [run_retry] at h
  | cons o rest ih =>
    intro evs r h
    cases o with
    | ok =>
      cases hA : aparallel_task d V u with
      | some rs =>
        simp only [run_retry, hA] at h
        obtain ⟨h1, -⟩ := Prod.mk.injEq .. ▸ Option.some.injEq .. ▸ h
        rw [← h1]
        cases flag <;>
          simp [List.mem_append, List.mem_map]
      | none =>
        cases flag with
        | false =>
          simp only [run_retry, hA, Bool.false_eq_true, if_false] at h
          obtain ⟨h1, -⟩ := Prod.mk.injEq .. ▸ Option.some.injEq .. ▸ h
          rw [← h1]; simp
        | true =>
          cases hR : run_retry d V u true rest with
          | none => simp [run_retry, hA, hR] at h
          | some p =>
            obtain ⟨evs', r'⟩ := p
            simp only [run_retry, hA, if_true, hR] at h
            obtain ⟨h1, -⟩ := Prod.mk.injEq .. ▸ Option.some.injEq .. ▸ h
            obtain ⟨ha, hr⟩ := ih evs' r' hR
            rw [← h1]
            simp [List.mem_append, ha, hr]
    | throughputLimit =>
      cases hR : run_retry d V u flag rest with
      | none => simp [run_retry, hR] at h
      | some p =>
        obtain ⟨evs', r'⟩ := p
        simp only [run_retry, hR] at h
        obtain ⟨h1, -⟩ := Prod.mk.injEq .. ▸ Option.some.injEq .. ▸ h
        obtain ⟨ha, hr⟩ := ih evs' r' hR
        rw [← h1]
        simp [List.mem_append, ha, hr]
    | evalFailure =>
      cases hR : run_retry d V u flag rest with
      | none => simp [run_retry, hR] at h
      | some p =>
        obtain ⟨evs', r'⟩ := p
        simp only [run_retry, hR] at h
        obtain ⟨h1, -⟩ := Prod.mk.injEq .. ▸ Option.some.injEq .. ▸ h
        obtain ⟨ha, hr⟩ := ih evs' r' hR
        rw [← h1]
        simp [List.mem_append, ha, hr]

theorem run_retry_replicate (d : Nat) (V : List Nat) (u : Nat → Nat → Nat)
    (flag : Bool) (hV : V ≠ []) :
    ∀ k : Nat, ∃ evs,
      run_retry d V u flag
        (List.replicate k AttemptOutcome.throughputLimit ++
          [AttemptOutcome.ok]) =
        some (evs, some (arun_single_input d V u)) ∧
      evs.countP isBackoff = k ∧
      (∀ n, Event.backoff n ∈ evs → n = 100) := by
  intro k
  induction k with
  | zero =>
    cases V with
    | nil => exact absurd rfl hV
    | cons v V' =>
      refine ⟨_, rfl, ?_, ?_⟩
      · cases flag <;>
          simp [List.countP_cons, List.countP_map, isBackoff, Function.comp]
      · intro n hn
        cases flag <;> simp [List.mem_map] at hn
  | succ k ih =>
    obtain ⟨evs, hevs, hcount, h100⟩ := ih
    refine ⟨[Event.rateWait,
      Event.engineCall AttemptOutcome.throughputLimit,
      Event.backoff 100] ++ evs, ?_, ?_, ?_⟩
    · rw [List.replicate_succ, List.cons_append]
      simp [run_retry, hevs]
    · simp [List.countP_cons, isBackoff, hcount]
    · intro n hn
      rcases List.mem_append.mp hn with h1 | h2
      · simp at h1
        omega
      · exact h100 n h2

/-! ### Lemmas about aggregation -/

theorem foldl_extendStep_none (V : List Nat) (u : Nat → Nat → Nat)
    (traces : Nat → List AttemptOutcome) (flags : Nat → Bool) :
    ∀ completed : List Nat,
      List.foldl (extendStep V u traces flags) none completed = none := by
  intro completed
  induction completed with
  | nil => rfl
  | cons c rest ih => simpa [extendStep] using ih

theorem foldl_extendStep_ok (V : List Nat) (u : Nat → Nat → Nat)
    (traces : Nat → List AttemptOutcome) (flags : Nat → Bool) :
    ∀ (completed : List Nat) (acc : List ExperimentResult),
      (∀ d ∈ completed, ∃ evs,
        eval_fn_with_semaphore d V u (flags d) (traces d) =
          some (evs, some (arun_single_input d V u))) →
      List.foldl (extendStep V u traces flags) (some acc) completed =
        some (acc ++
          (completed.map (fun d => arun_single_input d V u)).flatten) := by
  intro completed
  induction completed with
  | nil => intro acc _; simp
  | cons c rest ih =>
    intro acc h
    obtain ⟨evs, hc⟩ := h c (List.mem_cons_self c rest)
    have hrest := fun d hd => h d (List.mem_cons_of_mem c hd)
    have hstep : extendStep V u traces flags (some acc) c =
        some (acc ++ arun_single_input c V u) := by
      simp [extendStep, hc]
    rw [List.foldl_cons, hstep, ih (acc ++ arun_single_input c V u) hrest]
    simp

theorem eval_fn_ok_mem (d : Nat) (V : List Nat) (u : Nat → Nat → Nat)
    (flag : Bool) (hV : V ≠ []) (oc : List AttemptOutcome)
    (h : AttemptOutcome.ok ∈ oc) :
    ∃ evs, eval_fn_with_semaphore d V u flag oc =
      some (evs, some (arun_single_input d V u)) := by
  obtain ⟨evs, hevs⟩ := run_retry_ok_mem d V u flag hV oc h
  refine ⟨Event.acquire :: (evs ++ [Event.release]), ?_⟩
  simp [eval_fn_with_semaphore, hevs]

theorem aprocess_dataset_value (V : List Nat) (u : Nat → Nat → Nat)
    (traces : Nat → List AttemptOutcome) (flags : Nat → Bool)
    (completed : List Nat) (hV : V ≠ [])
    (hok : ∀ d ∈ completed, AttemptOutcome.ok ∈ traces d) :
    aprocess_dataset completed V u traces flags =
      some ((completed.map (fun d => arun_single_input d V u)).flatten) := by
  have h : ∀ d ∈ completed, ∃ evs,
      eval_fn_with_semaphore d V u (flags d) (traces d) =
        some (evs, some (arun_single_input d V u)) :=
    fun d hd => eval_fn_ok_mem d V u (flags d) hV (traces d) (hok d hd)
  simpa [aprocess_dataset] using foldl_extendStep_ok V u traces flags completed [] h

theorem eval_fn_nil_combos (d : Nat) (u : Nat → Nat → Nat) (flag : Bool)
    (oc : List AttemptOutcome) :
    eval_fn_with_semaphore d [] u flag oc = none ∨
      ∃ evs, eval_fn_with_semaphore d [] u flag oc = some (evs, none) := by
  rcases run_retry_nil_combos d u flag oc with h | ⟨evs, h⟩
  · left; simp [eval_fn_with_semaphore, h]
  · right
    refine ⟨Event.acquire :: (evs ++ [Event.release]), ?_⟩
    simp [eval_fn_with_semaphore, h]

theorem aprocess_dataset_nil_combos (u : Nat → Nat → Nat)
    (traces : Nat → List AttemptOutcome) (flags : Nat → Bool)
    (completed : List Nat) (h : completed ≠ []) :
    aprocess_dataset completed [] u traces flags = none := by
  cases completed with
  | nil => exact absurd rfl h
  | cons c rest =>
    have hstep : extendStep [] u traces flags (some []) c = none := by
      rcases eval_fn_nil_combos c u (flags c) (traces c) with h1 | ⟨evs, h1⟩ <;>
        simp [extendStep, h1]
    simp only [aprocess_dataset, List.foldl_cons, hstep]
    exact foldl_extendStep_none [] u traces flags rest

/-! ### Keys, lengths and permutations of aggregated results -/

theorem arun_eq_run : arun_single_input = run_single_input := rfl

theorem arun_single_input_length (d : Nat) (V : List Nat)
    (u : Nat → Nat → Nat) : (arun_single_input d V u).length = V.length := by
  simp [arun_single_input]

theorem arun_keys (d : Nat) (V : List Nat) (u : Nat → Nat → Nat) :
    (arun_single_input d V u).map resultKey = V.map (fun v => (d, v)) := by
  simp [arun_single_input, resultKey, List.map_map, Function.comp]

theorem flatten_map_arun_length (V : List Nat) (u : Nat → Nat → Nat) :
    ∀ completed : List Nat,
      ((completed.map (fun d => arun_single_input d V u)).flatten).length =
        completed.length * V.length := by
  intro completed
  induction completed with
  | nil => simp
  | cons c rest ih =>
    simp only [List.map_cons, List.flatten_cons, List.length_append, ih,
      arun_single_input_length, List.length_cons]
    ring

theorem keys_flatten_eq (V : List Nat) (u : Nat → Nat → Nat) :
    ∀ completed : List Nat,
      ((completed.map (fun d => arun_single_input d V u)).flatten).map
          resultKey =
        (completed.map (fun d => V.map (fun v => (d, v)))).flatten := by
  intro completed
  induction completed with
  | nil => rfl
  | cons c rest ih =>
    simp only [List.map_cons, List.flatten_cons, List.map_append, ih,
      arun_keys]

theorem pair_blocks_nodup (completed V : List Nat)
    (hc : completed.Nodup) (hv : V.Nodup) :
    ((completed.map (fun d => V.map (fun v => (d, v)))).flatten).Nodup := by
  rw [List.nodup_flatten]
  constructor
  · intro l hl
    obtain ⟨d, -, rfl⟩ := List.mem_map.mp hl
    exact hv.map (fun v1 v2 h => congrArg Prod.snd h)
  · rw [List.pairwise_map]
    refine hc.imp ?_
    intro a b hab x hx1 hx2
    obtain ⟨v1, -, rfl⟩ := List.mem_map.mp hx1
    obtain ⟨v2, -, h2⟩ := List.mem_map.mp hx2
    exact hab (congrArg Prod.fst h2).symm

theorem pair_blocks_mem (completed V : List Nat) (d v : Nat)
    (hd : d ∈ completed) (hv : v ∈ V) :
    (d, v) ∈ (completed.map (fun e => V.map (fun w => (e, w)))).flatten := by
  rw [List.mem_flatten]
  exact ⟨V.map (fun w => (d, w)), List.mem_map_of_mem _ hd,
    List.mem_map_of_mem _ hv⟩

theorem process_dataset_eq_flatten (V : List Nat) (u : Nat → Nat → Nat) :
    ∀ batches : List (List Nat),
      process_dataset batches V u =
        ((batches.flatten).map (fun d => run_single_input d V u)).flatten := by
  intro batches
  induction batches with
  | nil => rfl
  | cons b rest ih =>
    simp only [process_dataset, List.map_cons, List.flatten_cons] at ih ⊢
    rw [ih, List.map_append, List.flatten_append]
    rfl

theorem aprocess_perm_process (batches : List (List Nat)) (V : List Nat)
    (u : Nat → Nat → Nat) (completed : List Nat)
    (hperm : completed.Perm batches.flatten) :
    ((completed.map (fun d => arun_single_input d V u)).flatten).Perm
      (process_dataset batches V u) := by
  rw [process_dataset_eq_flatten, ← arun_eq_run]
  exact (hperm.map (fun d => arun_single_input d V u)).flatten

/-! ### The admission controller as a small-step system

Both scheduling variants bound concurrency the same way: a task must obtain
an admission slot (the `asyncio.Semaphore(20)` of `_aprocess_dataset`, or a
worker of the `ThreadPoolExecutor` of `_process_dataset`) before it may draw
from the rate budget (`rate_limiter.wait()` inside `async with semaphore:`;
the `RateLimiter(...)()` call at the start of `parallel_task`, which runs on
a pool worker) and invoke the evaluation engine.  A task's phase follows the
control flow of `eval_fn_with_semaphore` / a pool worker. -/

/-- The control-flow phase of one task. `pending`: before semaphore
acquisition; `inLoop`: inside the `with` block at the top of the retry loop;
`rateWaiting`: performing `rate_limiter.wait()`; `evaluating`: inside the
evaluation engine call; `done`: after the semaphore was released. -/
inductive TaskPhase where
  | pending
  | inLoop
  | rateWaiting
  | evaluating
  | done
deriving DecidableEq, Repr

/-- A task is past the admission controller (holds a slot) exactly in the
phases lexically inside the `with semaphore` block / inside a pool worker. -/
def pastAdmission : TaskPhase → Bool
  | TaskPhase.inLoop => true
  | TaskPhase.rateWaiting => true
  | TaskPhase.evaluating => true
  | _ => false

/-- Number of tasks currently past the admission controller. -/
def admittedCount (ts : List TaskPhase) : Nat := ts.countP pastAdmission

/-- One scheduler step with admission ceiling `c` (20 for the cooperative
semaphore; the pool size for the thread-pool variant): a pending task is
admitted only when a slot is free; an admitted task may start a rate-budget
draw; a draw completes into the engine call; a failed engine call returns to
the top of the retry loop (still holding its slot); a successful engine call
releases the slot and finishes. -/
inductive SchedStep (c : Nat) : List TaskPhase → List TaskPhase → Prop where
  | acquireSlot {ts : List TaskPhase} {i : Nat} (hi : i < ts.length)
      (hp : ts[i] = TaskPhase.pending)
      (hc : admittedCount ts < c) :
      SchedStep c ts (ts.set i TaskPhase.inLoop)
  | drawBudget {ts : List TaskPhase} {i : Nat} (hi : i < ts.length)
      (hp : ts[i] = TaskPhase.inLoop) :
      SchedStep c ts (ts.set i TaskPhase.rateWaiting)
  | startEval {ts : List TaskPhase} {i : Nat} (hi : i < ts.length)
      (hp : ts[i] = TaskPhase.rateWaiting) :
      SchedStep c ts (ts.set i TaskPhase.evaluating)
  | retryEval {ts : List TaskPhase} {i : Nat} (hi : i < ts.length)
      (hp : ts[i] = TaskPhase.evaluating) :
      SchedStep c ts (ts.set i TaskPhase.inLoop)
  | finishTask {ts : List TaskPhase} {i : Nat} (hi : i < ts.length)
      (hp : ts[i] = TaskPhase.evaluating) :
      SchedStep c ts (ts.set i TaskPhase.done)

/-- States reachable during a run of `n` tasks: all tasks start pending. -/
inductive SchedReachable (c n : Nat) : List TaskPhase → Prop where
  | init : SchedReachable c n (List.replicate n TaskPhase.pending)
  | step {ts ts' : List TaskPhase} : SchedReachable c n ts →
      SchedStep c ts ts' → SchedReachable c n ts'

theorem countP_set_add {α : Type} (p : α → Bool) :
    ∀ (ts : List α) (i : Nat) (v : α) (hi : i < ts.length),
      (ts.set i v).countP p + (if p ts[i] then 1 else 0) =
        ts.countP p + (if p v then 1 else 0) := by
  intro ts
  induction ts with
  | nil => intro i v hi; simp at hi
  | cons x xs ih =>
    intro i v hi
    cases i with
    | zero =>
      simp [List.set, List.countP_cons]
      omega
    | succ j =>
      have hj : j < xs.length := Nat.lt_of_succ_lt_succ hi
      simp only [List.set, List.countP_cons, List.getElem_cons_succ]
      have := ih j v hj
      omega

theorem sched_step_count {c : Nat} {ts ts' : List TaskPhase}
    (h : SchedStep c ts ts') :
    admittedCount ts' ≤ admittedCount ts ∨
      (admittedCount ts' = admittedCount ts + 1 ∧ admittedCount ts < c) := by
  cases h with
  | acquireSlot hi hp hc =>
    right
    have key := countP_set_add pastAdmission _ _ TaskPhase.inLoop hi
    rw [hp] at key
    simp [pastAdmission] at key
    simp only [admittedCount] at hc ⊢
    omega
  | drawBudget hi hp =>
    left
    have key := countP_set_add pastAdmission _ _ TaskPhase.rateWaiting hi
    rw [hp] at key
    simp [pastAdmission] at key
    simp only [admittedCount]
    omega
  | startEval hi hp =>
    left
    have key := countP_set_add pastAdmission _ _ TaskPhase.evaluating hi
    rw [hp] at key
    simp [pastAdmission] at key
    simp only [admittedCount]
    omega
  | retryEval hi hp =>
    left
    have key := countP_set_add pastAdmission _ _ TaskPhase.inLoop hi
    rw [hp] at key
    simp [pastAdmission] at key
    simp only [admittedCount]
    omega
  | finishTask hi hp =>
    left
    have key := countP_set_add pastAdmission _ _ TaskPhase.done hi
    rw [hp] at key
    simp [pastAdmission] at key
    simp only [admittedCount]
    omega

theorem sched_reachable_bound {c n : Nat} {ts : List TaskPhase}
    (h : SchedReachable c n ts) : admittedCount ts ≤ c := by
  induction h with
  | init =>
    have hz : admittedCount (List.replicate n TaskPhase.pending) = 0 := by
      simp only [admittedCount]
      rw [List.countP_eq_zero]
      intro a ha
      rw [List.eq_of_mem_replicate ha]
      simp [pastAdmission]
    omega
  | step _ hstep ih =>
    rcases sched_step_count hstep with h1 | ⟨h1, h2⟩ <;> omega

theorem sched_draw_holds_slot {c : Nat} {ts ts' : List TaskPhase}
    (h : SchedStep c ts ts') (i : Nat) (hi : i < ts.length)
    (hi' : i < ts'.length) (hnew : ts'[i] = TaskPhase.rateWaiting)
    (hold : ts[i] ≠ TaskPhase.rateWaiting) :
    pastAdmission ts[i] = true := by
  cases h with
  | @acquireSlot j hj hp hc =>
    by_cases hij : j = i
    · subst hij
      rw [List.getElem_set_self] at hnew
      simp at hnew
    · rw [List.getElem_set_ne hij] at hnew
      exact absurd hnew hold
  | @drawBudget j hj hp =>
    by_cases hij : j = i
    · subst hij
      rw [hp]
      rfl
    · rw [List.getElem_set_ne hij] at hnew
      exact absurd hnew hold
  | @startEval j hj hp =>
    by_cases hij : j = i
    · subst hij
      rw [List.getElem_set_self] at hnew
      simp at hnew
    · rw [List.getElem_set_ne hij] at hnew
      exact absurd hnew hold
  | @retryEval j hj hp =>
    by_cases hij : j = i
    · subst hij
      rw [List.getElem_set_self] at hnew
      simp at hnew
    · rw [List.getElem_set_ne hij] at hnew
      exact absurd hnew hold
  | @finishTask j hj hp =>
    by_cases hij : j = i
    · subst hij
      rw [List.getElem_set_self] at hnew
      simp at hnew
    · rw [List.getElem_set_ne hij] at hnew
      exact absurd hnew hold

/-! ### Progress reporting (`tqdm`) and the dead aggregate of line 62 -/

/-- Line 64–65: `total_tasks = sum([len(batch) for batch in data_batches]) *
len(all_combinations)`, used only as `tqdm`'s `total=` display argument. -/
def total_tasks (data_batches : List (List Nat)) (all_combinations : List Nat) :
    Nat :=
  (data_batches.map List.length).sum * all_combinations.length

/-- Line 62: the same aggregate expression, computed as a bare statement and
immediately discarded — dead code. -/
def line62_aggregate (data_batches : List (List Nat))
    (all_combinations : List Nat) : Nat :=
  (data_batches.map List.length).sum * all_combinations.length

/-- `_aprocess_dataset` with its progress side channel made explicit. `sink`
is the progress/telemetry collaborator (`tqdm`), folded over one
`(completed count, total count)` update per drained future; `deadValue`
stands for the value of the discarded line-62 expression, and
`progressTotal` for the `total=` value handed to `tqdm`. Neither reaches the
result computation: `tqdm` only wraps the `as_completed` iterator, yielding
its elements unchanged. Returns the result list together with the sink's
final state. -/
def aprocess_dataset_instr {σ : Type} (sink : σ → Nat × Nat → σ) (s0 : σ)
    (completed : List Nat) (V : List Nat) (u : Nat → Nat → Nat)
    (traces : Nat → List AttemptOutcome) (flags : Nat → Bool)
    (deadValue : Nat) (progressTotal : Nat) :
    Option (List ExperimentResult) × σ :=
  let _dead := deadValue
  let s1 := (List.range completed.length).foldl
    (fun s i => sink s (i + 1, progressTotal)) s0
  (aprocess_dataset completed V u traces flags, s1)

/-! ### `ExperimentRunner.run` — the pickle short-circuit -/

/-- A serialized experiment: the aggregated results plus markers recording
whether the selection strategy and the improver ran on it. -/
structure ExperimentData where
  results : List ExperimentResult
  selection_ran : Bool
  improver_ran : Bool
deriving DecidableEq, Repr

/-- The filesystem as an association list of path ↦ pickled experiment;
`pickle.dump` prepends, `os.path.exists`/`pickle.load` look up the most
recent entry. -/
def FileSys : Type := List (String × ExperimentData)

/-- `os.path.exists` over the modelled filesystem. -/
def os_path_exists (fs : FileSys) (p : String) : Bool :=
  (List.lookup p fs).isSome

/-- The outcome of one `ExperimentRunner.run` invocation: the experiment in
scope at the end, whether the evaluation pipeline (dataset processing,
selection strategy, improver — the `else` branch of lines 172–201) ran, and
the filesystem after the optional `pickle.dump`. -/
structure RunOutcome where
  experiment : ExperimentData
  pipeline_ran : Bool
  fs : FileSys

/-- `ExperimentRunner.run` (lines 146–211) for `source_type` in
`["dataset", "machine_generated"]`: if `experiment_input_path` is truthy and
names an existing file, the experiment is unpickled from it and the whole
evaluation pipeline is skipped; otherwise the pipeline runs, producing
`pipeline` (the experiment built from `_process_dataset`/`_aprocess_dataset`
results plus selection strategy and improver). If `output_path` is truthy the
experiment is pickled there. Defaults: `output_path="abc.pkl"`,
`experiment_input_path="abc.pkl"`. -/
def run (fs : FileSys) (pipeline : ExperimentData)
    (output_path experiment_input_path : Option String) : RunOutcome :=
  let loaded : Option ExperimentData :=
    match experiment_input_path with
    | some p => if os_path_exists fs p then List.lookup p fs else none
    | none => none
  let expRan : ExperimentData × Bool :=
    match loaded with
    | some e => (e, false)
    | none => (pipeline, true)
  let fs2 : FileSys :=
    match output_path with
    | some p => (p, expRan.1) :: fs
    | none => fs
  ⟨expRan.1, expRan.2, fs2⟩

/-- Default of the `output_path` keyword argument (line 149). -/
def default_output_path : Option String := some "abc.pkl"

/-- Default of the `experiment_input_path` keyword argument (line 150). -/
def default_experiment_input_path : Option String := some "abc.pkl"

/-- Recognizer of token-replenishment events. -/
def isAddTokens : Event → Bool
  | Event.addTokens _ => true
  | _ => false

/-! ### Claims -/

/-- C1 (amended): for every data set D and variation-combination set V, if no
task fails fatally (every task's outcome trace eventually succeeds) and —
as the counterexample `claim1_counterexample` forces — the
variation-combination set is non-empty, both schedulers return exactly
|D| · |V| results, one per (datum, variation) pair, with no duplicate and no
missing pair, regardless of completion order. (With V = ∅ and D ≠ ∅ the
cooperative run raises `TypeError` instead of returning a list.) -/
theorem claim1_aggregation_completeness
    (batches : List (List Nat)) (V : List Nat) (u : Nat → Nat → Nat)
    (traces : Nat → List AttemptOutcome) (flags : Nat → Bool)
    (completed : List Nat)
    (hperm : completed.Perm batches.flatten)
    (hok : ∀ d ∈ completed, AttemptOutcome.ok ∈ traces d)
    (hV : V ≠ []) (hD : batches.flatten.Nodup) (hVn : V.Nodup) :
    ∃ rs, aprocess_dataset completed V u traces flags = some rs ∧
      rs.length = batches.flatten.length * V.length ∧
      (rs.map resultKey).Nodup ∧
      (∀ d ∈ batches.flatten, ∀ v ∈ V, (d, v) ∈ rs.map resultKey) ∧
      (process_dataset batches V u).length =
        batches.flatten.length * V.length ∧
      ((process_dataset batches V u).map resultKey).Nodup ∧
      (∀ d ∈ batches.flatten, ∀ v ∈ V,
        (d, v) ∈ (process_dataset batches V u).map resultKey) := by
  have hcnd : completed.Nodup := hperm.nodup_iff.mpr hD
  refine ⟨_, aprocess_dataset_value V u traces flags completed hV hok,
    ?_, ?_, ?_, ?_, ?_, ?_⟩
  · rw [flatten_map_arun_length, hperm.length_eq]
  · rw [keys_flatten_eq]
    exact pair_blocks_nodup completed V hcnd hVn
  · intro d hd v hv
    rw [keys_flatten_eq]
    exact pair_blocks_mem completed V d v (hperm.mem_iff.mpr hd) hv
  · rw [process_dataset_eq_flatten, ← arun_eq_run, flatten_map_arun_length]
  · rw [process_dataset_eq_flatten, ← arun_eq_run, keys_flatten_eq]
    exact pair_blocks_nodup batches.flatten V hD hVn
  · intro d hd v hv
    rw [process_dataset_eq_flatten, ← arun_eq_run, keys_flatten_eq]
    exact pair_blocks_mem batches.flatten V d v hd hv

/-- C1 witness: D = {0, 1} in one batch, V = {3}, completion order reversed,
every task succeeds on its first attempt. -/
theorem claim1_aggregation_completeness_witness :
    ∃ rs, aprocess_dataset [1, 0] [3] (fun _ _ => 0)
        (fun _ => [AttemptOutcome.ok]) (fun _ => false) = some rs ∧
      rs.length = ([[0, 1]] : List (List Nat)).flatten.length *
        ([3] : List Nat).length ∧
      (rs.map resultKey).Nodup ∧
      (∀ d ∈ ([[0, 1]] : List (List Nat)).flatten, ∀ v ∈ ([3] : List Nat),
        (d, v) ∈ rs.map resultKey) ∧
      (process_dataset [[0, 1]] [3] (fun _ _ => 0)).length =
        ([[0, 1]] : List (List Nat)).flatten.length *
          ([3] : List Nat).length ∧
      ((process_dataset [[0, 1]] [3] (fun _ _ => 0)).map resultKey).Nodup ∧
      (∀ d ∈ ([[0, 1]] : List (List Nat)).flatten, ∀ v ∈ ([3] : List Nat),
        (d, v) ∈ (process_dataset [[0, 1]] [3] (fun _ _ => 0)).map
          resultKey) :=
  claim1_aggregation_completeness [[0, 1]] [3] (fun _ _ => 0)
    (fun _ => [AttemptOutcome.ok]) (fun _ => false) [1, 0]
    (by decide) (by decide) (by decide) (by decide) (by decide)

/-- C1 counterexample: D = {0}, V = ∅; every task attempt succeeds (no task
fails fatally: `aparallel_task` returns `None` without raising), yet the
cooperative run does not return a 0-entry result list — `results.extend(None)`
raises `TypeError`, modelled as `none`. -/
theorem claim1_counterexample :
    aprocess_dataset [0] [] (fun _ _ => 0) (fun _ => [AttemptOutcome.ok])
      (fun _ => false) = none := by decide

/-- C2: evaluation at the failing input. The first engine attempt fails with
a non-transient `EvaluationFailure`; the bare `except:` of lines 80–82
nevertheless treats it exactly like a throughput limit — it sleeps the fixed
100-second backoff, re-attempts the task, and on the second attempt returns
the full result list, with the failure neither surfaced nor the task
excluded from the collection. -/
theorem claim2_blanket_retry_code_bug :
    eval_fn_with_semaphore 0 [1] (fun _ _ => 0) false
      [AttemptOutcome.evalFailure, AttemptOutcome.ok] =
    some ([Event.acquire, Event.rateWait,
      Event.engineCall AttemptOutcome.evalFailure, Event.backoff 100,
      Event.rateWait, Event.engineCall AttemptOutcome.ok, Event.release],
      some [⟨0, 1, 0⟩]) := by decide

/-- C3: retry atomicity with fixed backoff. First conjunct: every terminating
execution of `eval_fn_with_semaphore` returns either nothing (`None`) or the
*full* per-variation result list of the whole task — never a subset, because
each retry re-runs `aparallel_task` with the complete combination set.
Second conjunct: a task whose engine fails `k` times with throughput limits
and then succeeds terminates returning its full result list (one result per
variation, appearing once as a whole), after exactly `k` backoff sleeps, each
of the fixed 100-second duration. -/
theorem claim3_retry_atomicity_fixed_backoff (d : Nat) (V : List Nat)
    (u : Nat → Nat → Nat) (flag : Bool) (k : Nat) (hV : V ≠ []) :
    (∀ (oc : List AttemptOutcome) (evs : List Event)
        (r : Option (List ExperimentResult)),
      eval_fn_with_semaphore d V u flag oc = some (evs, r) →
      r = none ∨ r = some (arun_single_input d V u)) ∧
    ∃ evs, eval_fn_with_semaphore d V u flag
        (List.replicate k AttemptOutcome.throughputLimit ++
          [AttemptOutcome.ok]) =
        some (evs, some (arun_single_input d V u)) ∧
      (arun_single_input d V u).length = V.length ∧
      evs.countP isBackoff = k ∧
      ∀ n, Event.backoff n ∈ evs → n = 100 := by
  constructor
  · intro oc evs r h
    cases hR : run_retry d V u flag oc with
    | none => simp [eval_fn_with_semaphore, hR] at h
    | some p =>
      obtain ⟨evs', r'⟩ := p
      simp only [eval_fn_with_semaphore, hR] at h
      obtain ⟨-, h2⟩ := Prod.mk.injEq .. ▸ Option.some.injEq .. ▸ h
      exact h2 ▸ run_retry_value d V u flag oc evs' r' hR
  · obtain ⟨evs, hevs, hcount, h100⟩ := run_retry_replicate d V u flag hV k
    refine ⟨Event.acquire :: (evs ++ [Event.release]), ?_,
      arun_single_input_length d V u, ?_, ?_⟩
    · simp [eval_fn_with_semaphore, hevs]
    · simp [List.countP_cons, List.countP_append, isBackoff, hcount]
    · intro n hn
      simp only [List.mem_cons, List.mem_append, List.mem_singleton] at hn
      rcases hn with h1 | h2 | h3
      · simp at h1
      · exact h100 n h2
      · simp at h3

/-- C3 witness: datum 0, V = {1}, two throughput-limit failures then
success. -/
theorem claim3_retry_atomicity_fixed_backoff_witness :
    (∀ (oc : List AttemptOutcome) (evs : List Event)
        (r : Option (List ExperimentResult)),
      eval_fn_with_semaphore 0 [1] (fun _ _ => 0) false oc = some (evs, r) →
      r = none ∨ r = some (arun_single_input 0 [1] (fun _ _ => 0))) ∧
    ∃ evs, eval_fn_with_semaphore 0 [1] (fun _ _ => 0) false
        (List.replicate 2 AttemptOutcome.throughputLimit ++
          [AttemptOutcome.ok]) =
        some (evs, some (arun_single_input 0 [1] (fun _ _ => 0))) ∧
      (arun_single_input 0 [1] (fun _ _ => 0)).length =
        ([1] : List Nat).length ∧
      evs.countP isBackoff = 2 ∧
      ∀ n, Event.backoff n ∈ evs → n = 100 :=
  claim3_retry_atomicity_fixed_backoff 0 [1] (fun _ _ => 0) false 2
    (by decide)

/-- C4: in every state reachable by either scheduling variant the number of
tasks past the admission controller never exceeds the configured ceiling
(20 for the cooperative `asyncio.Semaphore(20)`, the pool size for the
thread-pool variant), and any step that moves a task into the rate-budget
draw departs from a phase that already holds an admission slot. -/
theorem claim4_admission_invariant :
    (∀ (n : Nat) (ts : List TaskPhase),
      SchedReachable 20 n ts → admittedCount ts ≤ 20) ∧
    (∀ (poolSize n : Nat) (ts : List TaskPhase),
      SchedReachable poolSize n ts → admittedCount ts ≤ poolSize) ∧
    (∀ (c : Nat) (ts ts' : List TaskPhase), SchedStep c ts ts' →
      ∀ (i : Nat) (hi : i < ts.length) (hi' : i < ts'.length),
        ts'[i] = TaskPhase.rateWaiting → ts[i] ≠ TaskPhase.rateWaiting →
        pastAdmission ts[i] = true) :=
  ⟨fun _ _ h => sched_reachable_bound h,
   fun _ _ _ h => sched_reachable_bound h,
   fun _ _ _ h i hi hi' hnew hold =>
     sched_draw_holds_slot h i hi hi' hnew hold⟩

/-- C4 witness: a one-task run under ceiling 20 (initial state), a one-task
run under pool size 1 after admission, and a rate-draw step departing from
the slot-holding `inLoop` phase. -/
theorem claim4_admission_invariant_witness :
    admittedCount [TaskPhase.pending] ≤ 20 ∧
    admittedCount [TaskPhase.inLoop] ≤ 1 ∧
    pastAdmission ([TaskPhase.inLoop][0]) = true := by
  refine ⟨claim4_admission_invariant.1 1 [TaskPhase.pending]
    SchedReachable.init, ?_, ?_⟩
  · have h0 : SchedReachable 1 1 [TaskPhase.pending] := SchedReachable.init
    have hstep : SchedStep 1 [TaskPhase.pending] [TaskPhase.inLoop] :=
      @SchedStep.acquireSlot 1 [TaskPhase.pending] 0 (by decide) (by decide)
        (by decide)
    exact claim4_admission_invariant.2.1 1 1 [TaskPhase.inLoop]
      (SchedReachable.step h0 hstep)
  · have hstep : SchedStep 1 [TaskPhase.inLoop] [TaskPhase.rateWaiting] :=
      @SchedStep.drawBudget 1 [TaskPhase.inLoop] 0 (by decide) (by decide)
    exact claim4_admission_invariant.2.2 1 [TaskPhase.inLoop]
      [TaskPhase.rateWaiting] hstep 0 (by decide) (by decide) (by decide)
      (by decide)

/-- C5: evaluation at the failing input. The first task to complete observes
the outer `results` list empty, so the guard `if results:` (which misspells
the task's own `resutls`) is false: the task succeeds with a non-empty result
list of non-zero token usage, yet emits no `addTokens` replenishment event
before returning. -/
theorem claim5_first_task_cost_unreported :
    ∃ evs rs, eval_fn_with_semaphore 0 [1] (fun _ _ => 7) false
        [AttemptOutcome.ok] = some (evs, some rs) ∧
      rs ≠ [] ∧ (∀ r ∈ rs, r.token_usage = 7) ∧
      evs.countP isAddTokens = 0 :=
  ⟨[Event.acquire, Event.rateWait, Event.engineCall AttemptOutcome.ok,
    Event.release], [⟨0, 1, 7⟩], by decide, by decide, by decide, by decide⟩

/-- C6 (amended): for every data set D and non-empty variation set V (the
counterexample `claim6_counterexample` forces the non-emptiness proviso),
with no evaluation failing, the cooperative scheduler returns a result list
that is a permutation of the parallel scheduler's — identical key multiset,
differing at most in insertion order. -/
theorem claim6_scheduler_equivalence (batches : List (List Nat))
    (V : List Nat) (u : Nat → Nat → Nat) (traces : Nat → List AttemptOutcome)
    (flags : Nat → Bool) (completed : List Nat)
    (hperm : completed.Perm batches.flatten)
    (hok : ∀ d ∈ completed, AttemptOutcome.ok ∈ traces d) (hV : V ≠ []) :
    ∃ rs, aprocess_dataset completed V u traces flags = some rs ∧
      rs.Perm (process_dataset batches V u) ∧
      (rs.map resultKey).Perm
        ((process_dataset batches V u).map resultKey) := by
  refine ⟨_, aprocess_dataset_value V u traces flags completed hV hok,
    aprocess_perm_process batches V u completed hperm,
    (aprocess_perm_process batches V u completed hperm).map resultKey⟩

/-- C6 witness: D = {0} ∪ {1} in two batches, V = {2, 3}, completion order
reversed. -/
theorem claim6_scheduler_equivalence_witness :
    ∃ rs, aprocess_dataset [1, 0] [2, 3] (fun _ _ => 0)
        (fun _ => [AttemptOutcome.ok]) (fun _ => false) = some rs ∧
      rs.Perm (process_dataset [[0], [1]] [2, 3] (fun _ _ => 0)) ∧
      (rs.map resultKey).Perm
        ((process_dataset [[0], [1]] [2, 3] (fun _ _ => 0)).map resultKey) :=
  claim6_scheduler_equivalence [[0], [1]] [2, 3] (fun _ _ => 0)
    (fun _ => [AttemptOutcome.ok]) (fun _ => false) [1, 0]
    (by decide) (by decide) (by decide)

/-- C6 counterexample: D = {0}, V = ∅, no evaluation fails: the parallel
scheduler returns the empty collection but the cooperative scheduler returns
no collection at all (`results.extend(None)` raises `TypeError`), so the two
variants do not both produce key-identical collections for every D and V. -/
theorem claim6_counterexample :
    aprocess_dataset [0] [] (fun _ _ => 0) (fun _ => [AttemptOutcome.ok])
      (fun _ => false) = none ∧
    process_dataset [[0]] [] (fun _ _ => 0) = [] := by decide

/-- C7: every terminating execution of `eval_fn_with_semaphore` releases the
semaphore slot it acquired: its event trace is exactly one `acquire`, then a
loop body containing neither `acquire` nor `release`, closed by one final
`release` — on the success path and on every path that leaves the retry
loop. -/
theorem claim7_slot_release (d : Nat) (V : List Nat) (u : Nat → Nat → Nat)
    (flag : Bool) (oc : List AttemptOutcome) (evs : List Event)
    (r : Option (List ExperimentResult))
    (h : eval_fn_with_semaphore d V u flag oc = some (evs, r)) :
    ∃ evs', evs = Event.acquire :: (evs' ++ [Event.release]) ∧
      Event.acquire ∉ evs' ∧ Event.release ∉ evs' := by
  cases hR : run_retry d V u flag oc with
  | none => simp [eval_fn_with_semaphore, hR] at h
  | some p =>
    obtain ⟨evs', r'⟩ := p
    simp only [eval_fn_with_semaphore, hR] at h
    obtain ⟨h1, -⟩ := Prod.mk.injEq .. ▸ Option.some.injEq .. ▸ h
    obtain ⟨ha, hr⟩ := run_retry_events_no_sem d V u flag oc evs' r' hR
    exact ⟨evs', h1.symm, ha, hr⟩

/-- C7 witness: a single successful attempt. -/
theorem claim7_slot_release_witness :
    ∃ evs', ([Event.acquire, Event.rateWait,
        Event.engineCall AttemptOutcome.ok, Event.release] : List Event) =
      Event.acquire :: (evs' ++ [Event.release]) ∧
      Event.acquire ∉ evs' ∧ Event.release ∉ evs' :=
  claim7_slot_release 0 [1] (fun _ _ => 0) false [AttemptOutcome.ok]
    [Event.acquire, Event.rateWait, Event.engineCall AttemptOutcome.ok,
      Event.release] (some [⟨0, 1, 0⟩]) (by decide)

/-- C8: the progress side channel does not interfere with results: two runs
differing only in the progress/telemetry sink, its initial state, the
discarded line-62 aggregate value and the `total=` value fed to `tqdm`
produce the same result collection, equal to the sink-free
`aprocess_dataset`; and the line-62 dead expression computes the same value
as `total_tasks`, which itself only feeds the display. -/
theorem claim8_progress_noninterference {σ σ' : Type}
    (sink1 : σ → Nat × Nat → σ) (sink2 : σ' → Nat × Nat → σ')
    (s0 : σ) (s0' : σ') (completed : List Nat) (V : List Nat)
    (u : Nat → Nat → Nat) (traces : Nat → List AttemptOutcome)
    (flags : Nat → Bool) (d1 d2 t1 t2 : Nat) :
    (aprocess_dataset_instr sink1 s0 completed V u traces flags d1 t1).1 =
      (aprocess_dataset_instr sink2 s0' completed V u traces flags d2 t2).1 ∧
    (aprocess_dataset_instr sink1 s0 completed V u traces flags d1 t1).1 =
      aprocess_dataset completed V u traces flags ∧
    ∀ batches : List (List Nat),
      line62_aggregate batches V = total_tasks batches V :=
  ⟨rfl, rfl, fun _ => rfl⟩

/-- C9: the pickle short-circuit. The default `output_path` and
`experiment_input_path` are the same string "abc.pkl"; whenever
`experiment_input_path` names an existing file the experiment is unpickled
from it and the pipeline is skipped; hence a first default-argument run in a
fresh directory runs the pipeline and dumps to "abc.pkl", and a second
default-argument run in the same directory skips the pipeline and returns
the first run's serialized experiment. -/
theorem claim9_pickle_short_circuit (fs : FileSys)
    (pipeline pipeline2 : ExperimentData)
    (hfree : List.lookup "abc.pkl" fs = none) :
    default_output_path = default_experiment_input_path ∧
    (∀ (p : String) (e pl : ExperimentData) (o : Option String),
      List.lookup p fs = some e →
      (run fs pl o (some p)).experiment = e ∧
      (run fs pl o (some p)).pipeline_ran = false) ∧
    (run fs pipeline default_output_path
      default_experiment_input_path).pipeline_ran = true ∧
    (run fs pipeline default_output_path
      default_experiment_input_path).experiment = pipeline ∧
    (run (run fs pipeline default_output_path
        default_experiment_input_path).fs pipeline2 default_output_path
      default_experiment_input_path).pipeline_ran = false ∧
    (run (run fs pipeline default_output_path
        default_experiment_input_path).fs pipeline2 default_output_path
      default_experiment_input_path).experiment = pipeline := by
  refine ⟨rfl, ?_, ?_, ?_, ?_, ?_⟩
  · intro p e pl o hlook
    constructor <;> simp [run, os_path_exists, hlook]
  · simp [run, os_path_exists, default_output_path,
      default_experiment_input_path, hfree]
  · simp [run, os_path_exists, default_output_path,
      default_experiment_input_path, hfree]
  · simp [run, os_path_exists, default_output_path,
      default_experiment_input_path, hfree, List.lookup]
  · simp [run, os_path_exists, default_output_path,
      default_experiment_input_path, hfree, List.lookup]

/-- C9 witness: a fresh directory. -/
theorem claim9_pickle_short_circuit_witness :
    default_output_path = default_experiment_input_path ∧
    (∀ (p : String) (e pl : ExperimentData) (o : Option String),
      List.lookup p ([] : FileSys) = some e →
      (run ([] : FileSys) pl o (some p)).experiment = e ∧
      (run ([] : FileSys) pl o (some p)).pipeline_ran = false) ∧
    (run ([] : FileSys) ⟨[], false, false⟩ default_output_path
      default_experiment_input_path).pipeline_ran = true ∧
    (run ([] : FileSys) ⟨[], false, false⟩ default_output_path
      default_experiment_input_path).experiment = ⟨[], false, false⟩ ∧
    (run (run ([] : FileSys) ⟨[], false, false⟩ default_output_path
        default_experiment_input_path).fs ⟨[⟨0, 0, 0⟩], true, true⟩
      default_output_path default_experiment_input_path).pipeline_ran =
      false ∧
    (run (run ([] : FileSys) ⟨[], false, false⟩ default_output_path
        default_experiment_input_path).fs ⟨[⟨0, 0, 0⟩], true, true⟩
      default_output_path default_experiment_input_path).experiment =
      ⟨[], false, false⟩ :=
  claim9_pickle_short_circuit ([] : FileSys) ⟨[], false, false⟩
    ⟨[⟨0, 0, 0⟩], true, true⟩ rfl

/-- C10 (amended): `aparallel_task` returns `None` for an empty
variation-combination set; consequently with a *non-empty* dataset
`_aprocess_dataset` errors (`results.extend(None)` raises `TypeError`), and
any normal return under an empty combination set can only happen for the
empty dataset (the counterexample `claim10_counterexample`: no futures are
created and `[]` is returned normally). -/
theorem claim10_empty_variations (d : Nat) (u : Nat → Nat → Nat)
    (traces : Nat → List AttemptOutcome) (flags : Nat → Bool) :
    aparallel_task d [] u = none ∧
    (∀ completed : List Nat, completed ≠ [] →
      aprocess_dataset completed [] u traces flags = none) ∧
    (∀ (completed : List Nat) (rs : List ExperimentResult),
      aprocess_dataset completed [] u traces flags = some rs →
      completed = []) := by
  refine ⟨rfl, ?_, ?_⟩
  · exact fun completed h =>
      aprocess_dataset_nil_combos u traces flags completed h
  · intro completed rs h
    by_contra hne
    rw [aprocess_dataset_nil_combos u traces flags completed hne] at h
    exact Option.noConfusion h

/-- C10 witness: datum 0 with the empty combination set errors; the empty
dataset is the only normal return. -/
theorem claim10_empty_variations_witness :
    aparallel_task 0 [] (fun _ _ => 0) = none ∧
    aprocess_dataset [0] [] (fun _ _ => 0) (fun _ => [AttemptOutcome.ok])
      (fun _ => false) = none ∧
    ([] : List Nat) = [] :=
  ⟨(claim10_empty_variations 0 (fun _ _ => 0) (fun _ => [AttemptOutcome.ok])
      (fun _ => false)).1,
   (claim10_empty_variations 0 (fun _ _ => 0) (fun _ => [AttemptOutcome.ok])
      (fun _ => false)).2.1 [0] (by decide),
   (claim10_empty_variations 0 (fun _ _ => 0) (fun _ => [AttemptOutcome.ok])
      (fun _ => false)).2.2 [] [] (by decide)⟩

/-- C10 counterexample: with an empty dataset no futures are created, so
`_aprocess_dataset` returns normally (the empty list) although the
variation-combination set is empty — refuting "returns normally only under
the precondition that all_combinations is non-empty". -/
theorem claim10_counterexample :
    aprocess_dataset [] [] (fun _ _ => 0) (fun _ => [AttemptOutcome.ok])
      (fun _ => false) = some [] := by decide

end Yival
